import Mathlib

/-!
Verification of the `ASPTagger` core of `nlp4py/tagger.py` (a part-of-speech
tagger built on an averaged structured perceptron).

Shallow embedding conventions:
* Python strings are modelled as `List Char`; Python `str` methods such as
  `isalpha`/`isupper` are Unicode-aware while the Lean `Char` predicates used
  here are ASCII-accurate — every concrete input evaluated below is ASCII.
* The external learner (`AveragedStructuredPerceptron`: `fit`, `predict`,
  `score`, and the mutable `weights` table) is out of scope per the spec;
  where a method consumes its output (`predict`), that output is passed in
  as an explicit argument.
* Fallible Python code (KeyError, IndexError, ZeroDivisionError) is modelled
  with `Option`/`Except`.
-/

/-- Python strings modelled as lists of characters. -/
abbrev Word := List Char

/-- Python `str.lower()` (ASCII model). -/
def lowerW (w : Word) : Word := w.map Char.toLower

/- ===================  ASPTagger._word_shape  =================== -/

/-- Character classification of `_word_shape`'s loop body: uppercase letters
map to `X`, lowercase letters to `x`, digits to `d`, anything else to itself. -/
def shapeChar (c : Char) : Char :=
  if c.isAlpha then (if c.isUpper then 'X' else 'x')
  else if c.isDigit then 'd' else c

/-- The accumulation loop of `_word_shape`: `last` is the previous shape
character (Python initialises it to the empty string, modelled as `none`)
and `seq` counts how many times it has been repeated so far; a shape
character is appended only while `seq < 4` after the increment, so the
first four characters of a run are kept. -/
def shapeLoop : List Char → Option Char → Nat → List Char
  | [], _, _ => []
  | c :: cs, last, seq =>
      if some (shapeChar c) = last then
        if seq + 1 < 4 then shapeChar c :: shapeLoop cs last (seq + 1)
        else shapeLoop cs last (seq + 1)
      else shapeChar c :: shapeLoop cs (some (shapeChar c)) 0

/-- Model of `ASPTagger._word_shape`: words of length `≥ 100` collapse to
the sentinel `LONG`, otherwise the run-collapsing loop is applied. -/
def wordShape (w : List Char) : List Char :=
  if 100 ≤ w.length then ("LONG").data else shapeLoop w none 0

/-- Length of the longest prefix of `l` made of copies of `c`. -/
def leadCount (c : Char) : List Char → Nat
  | [] => 0
  | x :: xs => if x = c then leadCount c xs + 1 else 0

theorem le_leadCount_of_replicate_prefix {c : Char} {n : Nat} :
    ∀ {l : List Char}, List.replicate n c <+: l → n ≤ leadCount c l := by
  induction n with
  | zero => intro l _; exact Nat.zero_le _
  | succ m ih =>
      intro l h
      rw [List.replicate_succ] at h
      match l with
      | [] => exact absurd h.length_le (by simp)
      | x :: xs =>
          rw [List.cons_prefix_cons] at h
          obtain ⟨rfl, hrest⟩ := h
          simpa [leadCount] using ih hrest

theorem leadCount_shapeLoop_le (c : Char) :
    ∀ (cs : List Char) (last : Option Char) (seq : Nat),
      leadCount c (shapeLoop cs last seq) ≤ if last = some c then 3 - seq else 4 := by
  intro cs
  induction cs with
  | nil =>
      intro last seq
      show leadCount c [] ≤ _
      simp only [leadCount]
      split <;> omega
  | cons x xs ih =>
      intro last seq
      show leadCount c
          (if some (shapeChar x) = last then
            if seq + 1 < 4 then shapeChar x :: shapeLoop xs last (seq + 1)
            else shapeLoop xs last (seq + 1)
          else shapeChar x :: shapeLoop xs (some (shapeChar x)) 0) ≤ _
      by_cases hm : some (shapeChar x) = last
      · rw [if_pos hm]
        by_cases hs : seq + 1 < 4
        · rw [if_pos hs]
          simp only [leadCount]
          by_cases hc : shapeChar x = c
          · rw [if_pos hc]
            have hlast : last = some c := by rw [← hm, hc]
            have h1 := ih last (seq + 1)
            rw [if_pos hlast] at h1 ⊢
            omega
          · rw [if_neg hc]
            split <;> omega
        · rw [if_neg hs]
          have h1 := ih last (seq + 1)
          by_cases hl : last = some c
          · rw [if_pos hl] at h1 ⊢; omega
          · rw [if_neg hl] at h1 ⊢; exact h1
      · rw [if_neg hm]
        simp only [leadCount]
        by_cases hc : shapeChar x = c
        · rw [if_pos hc, hc]
          have h1 := ih (some c) 0
          rw [if_pos rfl] at h1
          have hl : ¬ (last = some c) := fun he => hm (by rw [hc, he])
          rw [if_neg hl]
          omega
        · rw [if_neg hc]
          split <;> omega

theorem shapeLoop_no_five_run (c : Char) :
    ∀ (cs : List Char) (last : Option Char) (seq : Nat),
      ¬ (List.replicate 5 c <:+: shapeLoop cs last seq) := by
  intro cs
  induction cs with
  | nil =>
      intro last seq h
      have := h.length_le
      simp [shapeLoop] at this
  | cons x xs ih =>
      intro last seq h
      rw [show shapeLoop (x :: xs) last seq =
          (if some (shapeChar x) = last then
            if seq + 1 < 4 then shapeChar x :: shapeLoop xs last (seq + 1)
            else shapeLoop xs last (seq + 1)
          else shapeChar x :: shapeLoop xs (some (shapeChar x)) 0) from rfl] at h
      by_cases hm : some (shapeChar x) = last
      · rw [if_pos hm] at h
        by_cases hs : seq + 1 < 4
        · rw [if_pos hs] at h
          rcases List.infix_cons_iff.mp h with hpre | hinf
          · rw [show (5 : Nat) = 4 + 1 from rfl, List.replicate_succ,
              List.cons_prefix_cons] at hpre
            obtain ⟨hc, hrest⟩ := hpre
            have h4 := le_leadCount_of_replicate_prefix hrest
            have hb := leadCount_shapeLoop_le c xs last (seq + 1)
            have hlast : last = some c := by rw [← hm, ← hc]
            rw [if_pos hlast] at hb
            omega
          · exact ih last (seq + 1) hinf
        · rw [if_neg hs] at h
          exact ih last (seq + 1) h
      · rw [if_neg hm] at h
        rcases List.infix_cons_iff.mp h with hpre | hinf
        · rw [show (5 : Nat) = 4 + 1 from rfl, List.replicate_succ,
            List.cons_prefix_cons] at hpre
          obtain ⟨hc, hrest⟩ := hpre
          have h4 := le_leadCount_of_replicate_prefix hrest
          have hb := leadCount_shapeLoop_le c xs (some (shapeChar x)) 0
          rw [← hc] at h4 hb
          rw [if_pos rfl] at hb
          omega
        · exact ih (some (shapeChar x)) 0 hinf

/-- C2 (counterexample): the claim says runs of four or more identical shape
characters collapse to exactly three repetitions, e.g. the shape of
`"!!!!!!"` is `"!!!"`; the code keeps the first FOUR characters of a run
(`seq < 4` with `seq` starting at 0), so the shape of `"!!!!!!"` is
`"!!!!"`, which contains four consecutive repeats. -/
theorem wordShape_three_repeat_counterexample :
    wordShape (("!!!!!!").data) = ("!!!!").data ∧
      wordShape (("!!!!!!").data) ≠ ("!!!").data ∧
      List.replicate 4 '!' <:+: wordShape (("!!!!!!").data) := by
  refine ⟨by decide, by decide, ?_⟩
  exact ⟨[], [], by decide⟩

/-- C2 (amended): the word-shape canonicalization collapses every run of five
or more identical shape characters into exactly four repetitions, so the
produced shape string never contains more than 4 consecutive repeats of the
same shape character. -/
theorem wordShape_run_bound (w : List Char) (c : Char) (n : Nat)
    (h : List.replicate n c <:+: wordShape w) : n ≤ 4 := by
  by_contra hlt
  push_neg at hlt
  have h5 : List.replicate 5 c <:+: wordShape w := by
    refine List.IsInfix.trans ?_ h
    have he : List.replicate n c = List.replicate 5 c ++ List.replicate (n - 5) c := by
      rw [← List.replicate_add]; congr 1; omega
    rw [he]
    exact (List.prefix_append _ _).isInfix
  by_cases hw : 100 ≤ w.length
  · rw [wordShape, if_pos hw] at h5
    have := h5.length_le
    simp at this
  · rw [wordShape, if_neg hw] at h5
    exact shapeLoop_no_five_run c w none 0 h5

/-- C2 (witness for `wordShape_run_bound`): the shape of `"!!!!!!"` contains a
run of four `!` characters and the bound `4 ≤ 4` holds there. -/
theorem wordShape_run_bound_witness :
    (List.replicate 4 '!' <:+: wordShape (("!!!!!!").data)) ∧ 4 ≤ 4 := by
  have hinf : List.replicate 4 '!' <:+: wordShape (("!!!!!!").data) :=
    ⟨[], [], by decide⟩
  exact ⟨hinf, wordShape_run_bound (("!!!!!!").data) '!' 4 hinf⟩

/- ===================  ASPTagger.crossvalidate / _cross_val_iteration  =================== -/

/-- Fold boundary `k * div + min(k, mod)` with `div, mod = divmod(N, 10)`,
as used by `_cross_val_iteration`'s slices of `sentence_ranges`. -/
def foldBound (n k : Nat) : Nat := k * (n / 10) + min k (n % 10)

/-- The `k`-th cross-validation fold of the sentence list, the slice
`sentence_ranges[i*div + min(i, mod):(i+1)*div + min(i+1, mod)]` taken by
`_cross_val_iteration` (a Python slice `[a:b]` is `drop a` then
`take (b - a)`). -/
def foldSlice {α : Type} (l : List α) (k : Nat) : List α :=
  (l.drop (foldBound l.length k)).take (foldBound l.length (k + 1) - foldBound l.length k)

theorem foldBound_mono (n : Nat) {j k : Nat} (h : j ≤ k) :
    foldBound n j ≤ foldBound n k := by
  unfold foldBound
  have h1 : j * (n / 10) ≤ k * (n / 10) := Nat.mul_le_mul_right _ h
  have h2 : min j (n % 10) ≤ min k (n % 10) := by omega
  omega

theorem foldBound_ten (n : Nat) : foldBound n 10 = n := by
  unfold foldBound
  have h1 : min 10 (n % 10) = n % 10 := by omega
  rw [h1]
  omega

theorem foldBound_succ_sub (n k : Nat) :
    foldBound n (k + 1) - foldBound n k =
      if k < n % 10 then n / 10 + 1 else n / 10 := by
  unfold foldBound
  split
  · next h =>
      have h1 : min (k + 1) (n % 10) = k + 1 := by omega
      have h2 : min k (n % 10) = k := by omega
      rw [h1, h2, Nat.succ_mul]
      omega
  · next h =>
      have h1 : min (k + 1) (n % 10) = n % 10 := by omega
      have h2 : min k (n % 10) = n % 10 := by omega
      rw [h1, h2, Nat.succ_mul]
      omega

theorem foldSlice_flatten_take {α : Type} (l : List α) :
    ∀ m, ((List.range m).map (foldSlice l)).flatten = l.take (foldBound l.length m) := by
  intro m
  induction m with
  | zero => simp [foldBound]
  | succ m ih =>
      rw [List.range_succ, List.map_append, List.flatten_append, ih]
      have hmono := foldBound_mono l.length (show m ≤ m + 1 by omega)
      have hstep : foldBound l.length (m + 1) =
          foldBound l.length m + (foldBound l.length (m + 1) - foldBound l.length m) := by
        omega
      rw [hstep, List.take_add]
      simp [foldSlice]

theorem foldSlice_length {α : Type} (l : List α) {k : Nat} (hk : k < 10) :
    (foldSlice l k).length =
      if k < l.length % 10 then l.length / 10 + 1 else l.length / 10 := by
  have hub : foldBound l.length (k + 1) ≤ l.length := by
    have := foldBound_mono l.length (show k + 1 ≤ 10 by omega)
    rw [foldBound_ten] at this
    exact this
  have hmono := foldBound_mono l.length (show k ≤ k + 1 by omega)
  rw [foldSlice, List.length_take, List.length_drop, ← foldBound_succ_sub]
  omega

/-- C3: `crossvalidate` splits the `N = l.length` sentences into exactly 10
contiguous, non-overlapping folds in original order whose concatenation is
the whole sentence list; with `div, mod = divmod(N, 10)` fold `k`
(0-indexed, `k < 10`) receives `div + 1` sentences if `k < mod` and `div`
otherwise; the fold sizes sum to `N` and differ pairwise by at most 1. -/
theorem crossvalidate_folds {α : Type} (l : List α) :
    ((List.range 10).map (foldSlice l)).flatten = l ∧
    (∀ k, k < 10 →
      (foldSlice l k).length =
        if k < l.length % 10 then l.length / 10 + 1 else l.length / 10) ∧
    ((List.range 10).map (fun k => (foldSlice l k).length)).sum = l.length ∧
    (∀ k₁ k₂, k₁ < 10 → k₂ < 10 →
      (foldSlice l k₁).length ≤ (foldSlice l k₂).length + 1) := by
  have hflat : ((List.range 10).map (foldSlice l)).flatten = l := by
    rw [foldSlice_flatten_take l 10, foldBound_ten, List.take_length]
  refine ⟨hflat, fun k hk => foldSlice_length l hk, ?_, ?_⟩
  · have hlen := congrArg List.length hflat
    simpa [List.length_flatten, List.map_map, Function.comp] using hlen
  · intro k₁ k₂ h1 h2
    rw [foldSlice_length l h1, foldSlice_length l h2]
    split <;> split <;> omega

/-- C3 (witness): splitting 23 sentences gives `div, mod = (2, 3)`: folds
0–2 receive 3 sentences, folds 3–9 receive 2, and the folds concatenate
back to the original sentence sequence. -/
theorem crossvalidate_folds_witness :
    (foldSlice (List.range 23) 0).length = 3 ∧
    (foldSlice (List.range 23) 2).length = 3 ∧
    (foldSlice (List.range 23) 3).length = 2 ∧
    (foldSlice (List.range 23) 9).length = 2 ∧
    ((List.range 10).map (foldSlice (List.range 23))).flatten = List.range 23 := by
  have h := crossvalidate_folds (List.range 23)
  refine ⟨?_, ?_, ?_, ?_, h.1⟩
  · rw [h.2.1 0 (by decide)]; decide
  · rw [h.2.1 2 (by decide)]; decide
  · rw [h.2.1 3 (by decide)]; decide
  · rw [h.2.1 9 (by decide)]; decide

/- ===================  ASPTagger.evaluate  =================== -/

/-- Tallies of `evaluate`'s counting loop: `correct`, `correct_iv`,
`correct_oov`, `total`, `total_iv`, `total_oov`. -/
structure EvalCounts where
  correct : Nat
  correctIV : Nat
  correctOOV : Nat
  total : Nat
  totalIV : Nat
  totalOOV : Nat
deriving DecidableEq

/-- Zero tallies. -/
def EvalCounts.zero : EvalCounts := ⟨0, 0, 0, 0, 0, 0⟩

/-- Pointwise sum of tallies. -/
def EvalCounts.add (a b : EvalCounts) : EvalCounts :=
  ⟨a.correct + b.correct, a.correctIV + b.correctIV, a.correctOOV + b.correctOOV,
    a.total + b.total, a.totalIV + b.totalIV, a.totalOOV + b.totalOOV⟩

/-- The inner loop of `evaluate`: for each `(w, g, p)` triple, increment
`total`; words in the vocabulary count toward the IV tallies, the others
toward the OOV tallies; a correct prediction (`g == p`) increments `correct`
and the matching category counter. -/
def tokenTally (vocab : List Word) : List (Word × Word × Word) → EvalCounts
  | [] => EvalCounts.zero
  | (w, g, p) :: rest =>
      let c := tokenTally vocab rest
      if w ∈ vocab then
        { c with
          total := c.total + 1, totalIV := c.totalIV + 1,
          correct := c.correct + (if g = p then 1 else 0),
          correctIV := c.correctIV + (if g = p then 1 else 0) }
      else
        { c with
          total := c.total + 1, totalOOV := c.totalOOV + 1,
          correct := c.correct + (if g = p then 1 else 0),
          correctOOV := c.correctOOV + (if g = p then 1 else 0) }

/-- The outer loop of `evaluate`: `zip(lengths, predicted)` walks the
sentences; each sentence's words and gold tags are the slice
`[start:start+length]` of the flat sequences, `zip`ped against the predicted
tags (Python `zip` truncates to the shortest argument). -/
def evalLoop (vocab : List Word) (words tags : List Word) :
    List Nat → List (List Word) → Nat → EvalCounts
  | [], _, _ => EvalCounts.zero
  | _ :: _, [], _ => EvalCounts.zero
  | len :: lens, pred :: preds, start =>
      (tokenTally vocab
        (((words.drop start).take len).zip (((tags.drop start).take len).zip pred))).add
        (evalLoop vocab words tags lens preds (start + len))

/-- All tallies of one `evaluate` call. -/
def evalCounts (vocab : List Word) (words tags : List Word) (lengths : List Nat)
    (predicted : List (List Word)) : EvalCounts :=
  evalLoop vocab words tags lengths predicted 0

/-- Model of the metric part of `ASPTagger.evaluate`. The overall accuracy
`correct / total` is an unguarded division (ZeroDivisionError propagates,
modelled as `none`); the IV and OOV divisions are wrapped in
`try/except ZeroDivisionError` with 0 substituted. `predicted` stands for
the external learner's `self.predict(X, lengths)` result. -/
def evaluateAcc (vocab : List Word) (words tags : List Word) (lengths : List Nat)
    (predicted : List (List Word)) : Option (ℚ × ℚ × ℚ) :=
  let c := evalCounts vocab words tags lengths predicted
  if c.total = 0 then none
  else
    some ((c.correct : ℚ) / c.total,
      if c.totalIV = 0 then 0 else (c.correctIV : ℚ) / c.totalIV,
      if c.totalOOV = 0 then 0 else (c.correctOOV : ℚ) / c.totalOOV)

/-- C5: whenever `evaluate` returns at all (nonzero total), a category with
zero tokens (IV or OOV) gets accuracy 0 rather than a division-by-zero
failure; in particular zero OOV tokens give `accuracy_oov == 0`. -/
theorem evaluate_zero_category_guard (vocab : List Word) (words tags : List Word)
    (lengths : List Nat) (predicted : List (List Word))
    (h : (evalCounts vocab words tags lengths predicted).total ≠ 0) :
    ∃ acc accIV accOOV,
      evaluateAcc vocab words tags lengths predicted = some (acc, accIV, accOOV) ∧
      ((evalCounts vocab words tags lengths predicted).totalIV = 0 → accIV = 0) ∧
      ((evalCounts vocab words tags lengths predicted).totalOOV = 0 → accOOV = 0) := by
  unfold evaluateAcc
  rw [if_neg h]
  refine ⟨_, _, _, rfl, ?_, ?_⟩ <;> intro h0 <;> rw [if_pos h0]

/-- C5 (witness): a one-token prediction set whose word is in the vocabulary
has zero OOV tokens, and `evaluate` returns `accuracy_oov = 0` instead of
failing. -/
theorem evaluate_zero_category_guard_witness :
    ∃ acc accIV accOOV,
      evaluateAcc [("a").data] [("a").data] [("N").data] [1] [[("N").data]] =
        some (acc, accIV, accOOV) ∧
      ((evalCounts [("a").data] [("a").data] [("N").data] [1] [[("N").data]]).totalIV = 0 →
        accIV = 0) ∧
      ((evalCounts [("a").data] [("a").data] [("N").data] [1] [[("N").data]]).totalOOV = 0 →
        accOOV = 0) :=
  evaluate_zero_category_guard [("a").data] [("a").data] [("N").data] [1] [[("N").data]]
    (by decide)

/-- C10: on an input with zero total tokens (for instance empty `lengths` or
all predictions empty) the unguarded overall division `correct / total`
raises ZeroDivisionError — `evaluate` fails rather than returning. -/
theorem evaluate_zero_total_error (vocab : List Word) (words tags : List Word)
    (lengths : List Nat) (predicted : List (List Word))
    (h : (evalCounts vocab words tags lengths predicted).total = 0) :
    evaluateAcc vocab words tags lengths predicted = none := by
  unfold evaluateAcc
  rw [if_pos h]

/-- C10 (witness): evaluating with flat word/tag sequences present but empty
`lengths` (hence zero tokens) yields the error outcome. -/
theorem evaluate_zero_total_error_witness :
    evaluateAcc [("a").data] [("a").data] [("N").data] [] [] = none :=
  evaluate_zero_total_error [("a").data] [("a").data] [("N").data] [] [] (by decide)

/- ===================  Vocabulary life cycle (train / tag / evaluate)  =================== -/

/-- The tagger-owned mutable state relevant to the vocabulary claims: the
vocabulary (a Python set, modelled membership-wise as a list) and the
lowercased word list captured by the `functools.partial` latent-feature
callback that `train`/`tag`/`evaluate` reinstall. The external learner's
state (`weights`, …) is out of scope per the spec. -/
structure TaggerState where
  vocabulary : List Word
  latentWords : List Word
deriving DecidableEq

/-- Model of `ASPTagger.train`: `self.vocabulary.update(set(words))` (set
union, modelled membership-wise by appending), reinstalls the latent-feature
callback over the lowercased input words and delegates to the external
`fit`. -/
def trainUpd (s : TaggerState) (words : List Word) : TaggerState :=
  { s with vocabulary := s.vocabulary ++ words, latentWords := words.map lowerW }

/-- The generator body of `ASPTagger.tag`: `zip(lengths, tags)` walks the
sentences and yields `zip(local_words, local_tags)` for each slice. -/
def tagZip (words : List Word) : List Nat → List (List Word) → Nat →
    List (List (Word × Word))
  | [], _, _ => []
  | _ :: _, [], _ => []
  | len :: lens, pred :: preds, start =>
      ((words.drop start).take len).zip pred :: tagZip words lens preds (start + len)

/-- Model of `ASPTagger.tag`: reinstalls the latent-feature callback, calls
the external `predict` (its result is the `predicted` argument) and yields
word–tag pairs per sentence; the vocabulary is not touched. -/
def tagRun (s : TaggerState) (words : List Word) (lengths : List Nat)
    (predicted : List (List Word)) : List (List (Word × Word)) × TaggerState :=
  (tagZip words lengths predicted 0, { s with latentWords := words.map lowerW })

/-- Model of `ASPTagger.evaluate` including its state effect: only the
latent-feature callback is reinstalled; the vocabulary is read, never
written. -/
def evaluateRun (s : TaggerState) (words tags : List Word) (lengths : List Nat)
    (predicted : List (List Word)) : Option (ℚ × ℚ × ℚ) × TaggerState :=
  (evaluateAcc s.vocabulary words tags lengths predicted,
    { s with latentWords := words.map lowerW })

/-- C8: the vocabulary only grows — every `train` call extends it with
exactly the words of its input (the old vocabulary is a subset of the new
one, and the new one contains exactly the old words plus the input words),
while `tag` and `evaluate` leave it unchanged. -/
theorem vocabulary_only_grows (s : TaggerState) (words tags : List Word)
    (lengths : List Nat) (predicted : List (List Word)) :
    (∀ w, w ∈ (trainUpd s words).vocabulary ↔ w ∈ s.vocabulary ∨ w ∈ words) ∧
    (∀ w, w ∈ s.vocabulary → w ∈ (trainUpd s words).vocabulary) ∧
    (tagRun s words lengths predicted).2.vocabulary = s.vocabulary ∧
    (evaluateRun s words tags lengths predicted).2.vocabulary = s.vocabulary := by
  refine ⟨fun w => by simp [trainUpd], fun w h => by simp [trainUpd, h], rfl, rfl⟩

/- ===================  ASPTagger._get_latent_features  =================== -/

/-- Lookup in a Python dict modelled as an association list (first matching
key wins, as in a dict with unique keys). -/
def assocLookup {α : Type} (m : List (Word × α)) (k : Word) : Option α :=
  (m.find? (fun p => p.1 == k)).map Prod.snd

/-- Dict subscript `mapping[t]`: a missing key raises KeyError, modelled as
`Except.error`. -/
def mlookup (m : List (Word × Word)) (t : Word) : Except Unit Word :=
  match assocLookup m t with
  | some v => .ok v
  | none => .error ()

/-- Discriminator for `Except` success. -/
def exceptOk {ε α : Type} : Except ε α → Bool
  | .ok _ => true
  | .error _ => false

/-- Model of `ASPTagger._get_latent_features`. `words` is the lowercased
word list captured by the callback, `beam` the candidate tag history,
`i` the sentence-local index, `global_i = start + i`. The tag history is
prefixed with the two `<START>` sentinels and consulted at `tags[j-1]` and
`tags[j-2]` with `j = i + 2`; every lookup of the coarse `mapping` can fail
(KeyError). Feature strings and their order follow the `append` sequence of
the source; out-of-range indexing (impossible for decoder-supplied
arguments) is modelled with `getD`. -/
def latentTag (beam : List Word) (k : Nat) : Word :=
  ([("<START-2>").data, ("<START-1>").data] ++ beam).getD k []

def getLatentFeatures (mapping : Option (List (Word × Word))) (words : List Word)
    (start : Nat) (beam : List Word) (i : Nat) : Except Unit (List Word) :=
  let j := i + 2
  let t1 := latentTag beam (j - 1)
  let t2 := latentTag beam (j - 2)
  let w0 := words.getD (start + i) []
  let wm1 := words.getD (start + i - 1) []
  let wm2 := words.getD (start + i - 2) []
  let base := [("P1_pos: ").data ++ t1,
               ("P2_pos: ").data ++ t2,
               ("P2_pos, P1_pos: ").data ++ t2 ++ (", ").data ++ t1,
               ("P1_pos, W_word: ").data ++ t1 ++ (", ").data ++ w0]
  match mapping with
  | none =>
      .ok ((if 1 ≤ i then [("P1_word, P1_pos: ").data ++ wm1 ++ (", ").data ++ t1] else []) ++
           (if 2 ≤ i then [("P2_word, P2_pos: ").data ++ wm2 ++ (", ").data ++ t2] else []) ++
           base)
  | some m =>
      (if 1 ≤ i then
        (mlookup m t1).map (fun wc =>
          [("P1_word, P1_pos: ").data ++ wm1 ++ (", ").data ++ t1,
           ("P1_word, P1_wc: ").data ++ wm1 ++ (", ").data ++ wc])
       else .ok []) >>= fun l1 =>
      (if 2 ≤ i then
        (mlookup m t2).map (fun wc =>
          [("P2_word, P2_pos: ").data ++ wm2 ++ (", ").data ++ t2,
           ("P2_word, P2_wc: ").data ++ wm2 ++ (", ").data ++ wc])
       else .ok []) >>= fun l2 =>
      (mlookup m t1) >>= fun wc1 =>
      (mlookup m t2) >>= fun wc2 =>
      .ok (l1 ++ l2 ++ base ++
           [("P1_wc: ").data ++ wc1,
            ("P2_wc: ").data ++ wc2,
            ("P2_wc, P1_wc: ").data ++ wc2 ++ (", ").data ++ wc1,
            ("P1_wc, W_word: ").data ++ wc1 ++ (", ").data ++ w0])

/-- C7: with a coarse tag mapping configured, `_get_latent_features`
succeeds exactly when both consulted history tags (`tags[j-1]` and
`tags[j-2]` with `j = i + 2`, i.e. positions `i+1` and `i` of the
sentinel-prefixed history, including the availability-gated duplicates of
the same positions) are present in the mapping — a missing tag raises KeyError; with
no mapping configured the call never fails. -/
theorem latent_features_mapping_error (m : List (Word × Word)) (words : List Word)
    (start : Nat) (beam : List Word) (i : Nat) :
    ((exceptOk (getLatentFeatures (some m) words start beam i) = true) ↔
      ((assocLookup m (latentTag beam (i + 1))).isSome ∧
       (assocLookup m (latentTag beam i)).isSome)) ∧
    exceptOk (getLatentFeatures none words start beam i) = true := by
  constructor
  · cases h1 : assocLookup m (latentTag beam (i + 1)) <;>
      cases h2 : assocLookup m (latentTag beam i) <;>
        by_cases hi1 : 1 ≤ i <;> by_cases hi2 : 2 ≤ i <;>
          simp [getLatentFeatures, mlookup, exceptOk, h1, h2, hi1, hi2,
            Except.map, Bind.bind, Except.bind]
  · simp [getLatentFeatures, exceptOk]

/- ===================  ASPTagger.save / ASPTagger.load  =================== -/

/-- The RFC 1924 base85 alphabet used by Python's `base64.b85encode`. -/
def b85Alphabet : List Char :=
  ("0123456789ABCDEFGHIJKLMNOPQRSTUVWXYZabcdefghijklmnopqrstuvwxyz" ++
   "!#$%&()*+-;<=>?@^_`\x7b|\x7d~").data

/-- Digit-to-character of base85. -/
def b85Digit (d : Nat) : Char := b85Alphabet.getD d ' '

/-- Character-to-digit of base85 (85 when the character is invalid). -/
def b85Value (c : Char) : Nat := b85Alphabet.findIdx (fun x => x == c)

/-- One 4-byte group encoded as 5 base85 digits, most significant first
(the constants are `85^4`, `85^3`, `85^2`). -/
def b85Group (n : Nat) : List Char :=
  [b85Digit (n / 52200625 % 85), b85Digit (n / 614125 % 85), b85Digit (n / 7225 % 85),
   b85Digit (n / 85 % 85), b85Digit (n % 85)]

/-- Model of `base64.b85encode`: bytes are grouped by 4 into a big-endian
32-bit value, each group becomes 5 base85 characters; a final partial group
is padded with zero bytes and truncated to `len + 1` characters (the
partial-group cases never arise for `save`, whose inputs are `8 k` bytes). -/
def b85encode : List Nat → List Char
  | b0 :: b1 :: b2 :: b3 :: rest =>
      b85Group (((b0 * 256 + b1) * 256 + b2) * 256 + b3) ++ b85encode rest
  | [] => []
  | [b0] => (b85Group (b0 * 16777216)).take 2
  | [b0, b1] => (b85Group ((b0 * 256 + b1) * 65536)).take 3
  | [b0, b1, b2] => (b85Group (((b0 * 256 + b1) * 256 + b2) * 256)).take 4

/-- One 32-bit value decoded into its 4 big-endian bytes (the constants are
`2^24`, `2^16`, `2^8`). -/
def b85DecGroup (n : Nat) : List Nat :=
  [n / 16777216 % 256, n / 65536 % 256, n / 256 % 256, n % 256]

/-- Model of `base64.b85decode`: 5 characters rebuild one 32-bit group; a
final partial group is padded with `~` (digit 84) and truncated (again never
reached for model files). -/
def b85decode : List Char → List Nat
  | c0 :: c1 :: c2 :: c3 :: c4 :: rest =>
      b85DecGroup ((((b85Value c0 * 85 + b85Value c1) * 85 + b85Value c2) * 85 +
        b85Value c3) * 85 + b85Value c4) ++ b85decode rest
  | [] => []
  | [_] => []
  | [c0, c1] =>
      (b85DecGroup ((((b85Value c0 * 85 + b85Value c1) * 85 + 84) * 85 + 84) * 85 + 84)).take 1
  | [c0, c1, c2] =>
      (b85DecGroup ((((b85Value c0 * 85 + b85Value c1) * 85 + b85Value c2) * 85 + 84) * 85 +
        84)).take 2
  | [c0, c1, c2, c3] =>
      (b85DecGroup ((((b85Value c0 * 85 + b85Value c1) * 85 + b85Value c2) * 85 +
        b85Value c3) * 85 + 84)).take 3

/-- The 8 little-endian bytes of a 64-bit value, as produced by
`numpy.ndarray.tostring()` for a native-endian float64 array (each float is
identified with its 64-bit pattern; the constants are `256^k`). -/
def word64ToBytes (x : Nat) : List Nat :=
  [x % 256, x / 256 % 256, x / 65536 % 256, x / 16777216 % 256,
   x / 4294967296 % 256, x / 1099511627776 % 256, x / 281474976710656 % 256,
   x / 72057594037927936 % 256]

/-- Inverse of `word64ToBytes` over a flat byte stream, as performed by
`np.fromstring(…, np.float64)` (a trailing partial item never arises). -/
def bytesToWords : List Nat → List Nat
  | b0 :: b1 :: b2 :: b3 :: b4 :: b5 :: b6 :: b7 :: rest =>
      (b0 + 256 * (b1 + 256 * (b2 + 256 * (b3 + 256 * (b4 + 256 * (b5 + 256 *
        (b6 + 256 * b7))))))) :: bytesToWords rest
  | _ => []

/-- Model of `numpy.ndarray.tostring()` over a whole weight vector. -/
def vecToBytes (v : List Nat) : List Nat := (v.map word64ToBytes).flatten

/-- Lexicographic comparison of code-point sequences: Python `sorted` on
strings. -/
def wordLe : List Char → List Char → Bool
  | [], _ => true
  | _ :: _, [] => false
  | x :: xs, y :: ys => if x < y then true else if y < x then false else wordLe xs ys

/-- The model state that `save` persists: the tagger-owned tables plus the
external learner's `target_mapping`, `target_size` and `weights` (weight
vectors as lists of 64-bit float bit patterns). -/
structure PModel where
  vocabulary : List Word
  lexicon : Option (List (Word × List Word))
  mapping : Option (List (Word × Word))
  brownClusters : Option (List (Word × (Word × Int)))
  wordToVec : Option (List (Word × Word))
  targetMapping : List (Word × Nat)
  targetSize : Nat
  weights : List (Word × List Nat)

/-- The 9-element persisted structure written by `save` (the JSON/gzip text
layer is a faithful transport of this structure and is not re-modelled):
`[vocabulary, lexicon, mapping, brown_clusters, word_to_vec, target_mapping,
target_size, features, weight_strings]`. -/
structure SavedFile where
  vocabulary : List Word
  lexicon : Option (List (Word × List Word))
  mapping : Option (List (Word × Word))
  brownClusters : Option (List (Word × (Word × Int)))
  wordToVec : Option (List (Word × Word))
  targetMapping : List (Word × Nat)
  targetSize : Nat
  features : List Word
  weightStrings : List (List Char)

/-- Computes `features = sorted(self.weights.keys())`. -/
def sortedFeatures (ws : List (Word × List Nat)) : List Word :=
  List.insertionSort (fun a b => wordLe a b = true) (ws.map Prod.fst)

/-- Model of `ASPTagger.save`: writes the nine components; the weight vector
of every sorted feature but the last is written in order, then the one of
`features[-1]` — indexing that raises IndexError when the weight table is
empty (modelled as `none`, with the file left incomplete). -/
def save (m : PModel) : Option SavedFile :=
  let features := sortedFeatures m.weights
  match features.getLast? with
  | none => none
  | some lastF =>
      some { vocabulary := m.vocabulary, lexicon := m.lexicon, mapping := m.mapping,
             brownClusters := m.brownClusters, wordToVec := m.wordToVec,
             targetMapping := m.targetMapping, targetSize := m.targetSize,
             features := features,
             weightStrings :=
               features.dropLast.map
                 (fun f => b85encode (vecToBytes ((assocLookup m.weights f).getD []))) ++
               [b85encode (vecToBytes ((assocLookup m.weights lastF).getD []))] }

/-- Model of `ASPTagger.load`: reads the nine components back, rebuilds the
vocabulary as a set and the weight table by zipping the sorted feature names
onto the decoded vectors. -/
def load (sf : SavedFile) : PModel :=
  { vocabulary := sf.vocabulary, lexicon := sf.lexicon, mapping := sf.mapping,
    brownClusters := sf.brownClusters, wordToVec := sf.wordToVec,
    targetMapping := sf.targetMapping, targetSize := sf.targetSize,
    weights := sf.features.zip (sf.weightStrings.map (fun w => bytesToWords (b85decode w))) }


theorem b85Value_digit : ∀ d, d < 85 → b85Value (b85Digit d) = d := by decide

theorem b85encode_cons4 (b0 b1 b2 b3 : Nat) (rest : List Nat) :
    b85encode (b0 :: b1 :: b2 :: b3 :: rest) =
      b85Group (((b0 * 256 + b1) * 256 + b2) * 256 + b3) ++ b85encode rest := rfl

theorem b85decode_cons5 (c0 c1 c2 c3 c4 : Char) (tail : List Char) :
    b85decode (c0 :: c1 :: c2 :: c3 :: c4 :: tail) =
      b85DecGroup ((((b85Value c0 * 85 + b85Value c1) * 85 + b85Value c2) * 85 +
        b85Value c3) * 85 + b85Value c4) ++ b85decode tail := rfl

theorem base85_reconstruct (N : Nat) (hN : N < 4294967296) :
    (((N / 52200625 % 85 * 85 + N / 614125 % 85) * 85 + N / 7225 % 85) * 85 +
      N / 85 % 85) * 85 + N % 85 = N := by
  have q1 : N / 85 / 85 = N / 7225 := by rw [Nat.div_div_eq_div_mul]
  have q2 : N / 7225 / 85 = N / 614125 := by rw [Nat.div_div_eq_div_mul]
  have q3 : N / 614125 / 85 = N / 52200625 := by rw [Nat.div_div_eq_div_mul]
  omega

theorem base256_bytes (b0 b1 b2 b3 : Nat) (h0 : b0 < 256) (h1 : b1 < 256)
    (h2 : b2 < 256) (h3 : b3 < 256) :
    (((b0 * 256 + b1) * 256 + b2) * 256 + b3) / 16777216 % 256 = b0 ∧
    (((b0 * 256 + b1) * 256 + b2) * 256 + b3) / 65536 % 256 = b1 ∧
    (((b0 * 256 + b1) * 256 + b2) * 256 + b3) / 256 % 256 = b2 ∧
    (((b0 * 256 + b1) * 256 + b2) * 256 + b3) % 256 = b3 := by
  have q1 : (((b0 * 256 + b1) * 256 + b2) * 256 + b3) / 256 / 256 =
      (((b0 * 256 + b1) * 256 + b2) * 256 + b3) / 65536 := by
    rw [Nat.div_div_eq_div_mul]
  have q2 : (((b0 * 256 + b1) * 256 + b2) * 256 + b3) / 65536 / 256 =
      (((b0 * 256 + b1) * 256 + b2) * 256 + b3) / 16777216 := by
    rw [Nat.div_div_eq_div_mul]
  omega

theorem b85decode_encode_aux :
    ∀ (k : Nat) (bytes : List Nat), bytes.length = 4 * k → (∀ b ∈ bytes, b < 256) →
      b85decode (b85encode bytes) = bytes := by
  intro k
  induction k with
  | zero =>
      intro bytes hlen _
      have h0 : bytes = [] := List.eq_nil_of_length_eq_zero (by omega)
      subst h0
      rfl
  | succ n ih =>
      intro bytes hlen hb
      rcases bytes with _ | ⟨b0, _ | ⟨b1, _ | ⟨b2, _ | ⟨b3, rest⟩⟩⟩⟩ <;>
        simp only [List.length_nil, List.length_cons] at hlen
      · omega
      · omega
      · omega
      · omega
      · have hb0 : b0 < 256 := hb _ (by simp)
        have hb1 : b1 < 256 := hb _ (by simp)
        have hb2 : b2 < 256 := hb _ (by simp)
        have hb3 : b3 < 256 := hb _ (by simp)
        rw [b85encode_cons4, b85Group]
        simp only [List.cons_append, List.nil_append]
        rw [b85decode_cons5]
        have h85 : (0 : Nat) < 85 := by norm_num
        rw [b85Value_digit _ (Nat.mod_lt _ h85), b85Value_digit _ (Nat.mod_lt _ h85),
          b85Value_digit _ (Nat.mod_lt _ h85), b85Value_digit _ (Nat.mod_lt _ h85),
          b85Value_digit _ (Nat.mod_lt _ h85)]
        rw [base85_reconstruct _ (by omega), b85DecGroup]
        obtain ⟨e0, e1, e2, e3⟩ := base256_bytes b0 b1 b2 b3 hb0 hb1 hb2 hb3
        rw [e0, e1, e2, e3]
        rw [ih rest (by omega) (fun b hbm => hb b (by simp [hbm]))]
        rfl

theorem b85decode_encode (bytes : List Nat) (hb : ∀ b ∈ bytes, b < 256)
    (h4 : bytes.length % 4 = 0) : b85decode (b85encode bytes) = bytes :=
  b85decode_encode_aux (bytes.length / 4) bytes (by omega) hb

theorem bytesToWords_cons8 (y0 y1 y2 y3 y4 y5 y6 y7 : Nat) (tail : List Nat) :
    bytesToWords (y0 :: y1 :: y2 :: y3 :: y4 :: y5 :: y6 :: y7 :: tail) =
      (y0 + 256 * (y1 + 256 * (y2 + 256 * (y3 + 256 * (y4 + 256 * (y5 + 256 *
        (y6 + 256 * y7))))))) :: bytesToWords tail := rfl

theorem word64_reconstruct (x : Nat) (hx : x < 18446744073709551616) :
    x % 256 + 256 * (x / 256 % 256 + 256 * (x / 65536 % 256 + 256 *
      (x / 16777216 % 256 + 256 * (x / 4294967296 % 256 + 256 *
      (x / 1099511627776 % 256 + 256 * (x / 281474976710656 % 256 + 256 *
      (x / 72057594037927936 % 256))))))) = x := by
  have q1 : x / 256 / 256 = x / 65536 := by rw [Nat.div_div_eq_div_mul]
  have q2 : x / 65536 / 256 = x / 16777216 := by rw [Nat.div_div_eq_div_mul]
  have q3 : x / 16777216 / 256 = x / 4294967296 := by rw [Nat.div_div_eq_div_mul]
  have q4 : x / 4294967296 / 256 = x / 1099511627776 := by rw [Nat.div_div_eq_div_mul]
  have q5 : x / 1099511627776 / 256 = x / 281474976710656 := by rw [Nat.div_div_eq_div_mul]
  have q6 : x / 281474976710656 / 256 = x / 72057594037927936 := by
    rw [Nat.div_div_eq_div_mul]
  omega

theorem bytesToWords_vecToBytes (v : List Nat) (hv : ∀ x ∈ v, x < 2 ^ 64) :
    bytesToWords (vecToBytes v) = v := by
  induction v with
  | nil => rfl
  | cons x xs ih =>
      have hx : x < 18446744073709551616 := by
        have := hv x (by simp)
        omega
      show bytesToWords (word64ToBytes x ++ vecToBytes xs) = x :: xs
      rw [word64ToBytes]
      simp only [List.cons_append, List.nil_append]
      rw [bytesToWords_cons8, word64_reconstruct x hx,
        ih (fun y hy => hv y (by simp [hy]))]

theorem vecToBytes_lt (v : List Nat) : ∀ b ∈ vecToBytes v, b < 256 := by
  induction v with
  | nil => simp [vecToBytes]
  | cons x xs ih =>
      intro b hb
      have hb' : b ∈ word64ToBytes x ++ vecToBytes xs := hb
      rcases List.mem_append.mp hb' with h | h
      · simp only [word64ToBytes, List.mem_cons, List.not_mem_nil, or_false] at h
        rcases h with rfl | rfl | rfl | rfl | rfl | rfl | rfl | rfl <;> omega
      · exact ih b h

theorem vecToBytes_length (v : List Nat) : (vecToBytes v).length = 8 * v.length := by
  induction v with
  | nil => rfl
  | cons x xs ih =>
      show (word64ToBytes x ++ vecToBytes xs).length = _
      rw [List.length_append, ih, word64ToBytes]
      simp only [List.length_cons, List.length_nil]
      omega

theorem assocLookup_map_self {β : Type} (g : Word → β) (l : List Word) (f : Word) :
    assocLookup (l.map fun k => (k, g k)) f = if f ∈ l then some (g f) else none := by
  induction l with
  | nil => simp [assocLookup]
  | cons k ks ih =>
      by_cases hk : k = f
      · subst hk
        simp [assocLookup, List.find?_cons_of_pos]
      · have hbeq : (k == f) = false := beq_eq_false_iff_ne.mpr hk
        unfold assocLookup
        rw [List.map_cons, List.find?_cons_of_neg _ (by simp [hbeq])]
        rw [show (List.find? (fun p => p.1 == f) (ks.map fun k => (k, g k))).map
            Prod.snd = assocLookup (ks.map fun k => (k, g k)) f from rfl, ih]
        by_cases hfk : f ∈ ks
        · rw [if_pos hfk, if_pos (List.mem_cons_of_mem _ hfk)]
        · rw [if_neg hfk, if_neg (by
            intro hm
            rcases List.mem_cons.mp hm with h | h
            · exact hk h.symm
            · exact hfk h)]

theorem assocLookup_eq_none_of_not_mem_keys {β : Type} (l : List (Word × β)) (f : Word)
    (h : f ∉ l.map Prod.fst) : assocLookup l f = none := by
  unfold assocLookup
  rw [List.find?_eq_none.mpr]
  · rfl
  · intro p hp hbe
    exact h (List.mem_map.mpr ⟨p, hp, by simpa using hbe⟩)

theorem assocLookup_mem {β : Type} (l : List (Word × β)) (f : Word)
    (h : f ∈ l.map Prod.fst) : ∃ p, p ∈ l ∧ p.1 = f ∧ assocLookup l f = some p.2 := by
  have hsome : (l.find? (fun p => p.1 == f)).isSome := by
    refine List.find?_isSome.mpr ?_
    obtain ⟨p, hp, hfst⟩ := List.mem_map.mp h
    exact ⟨p, hp, by simp [hfst]⟩
  obtain ⟨p, hp⟩ := Option.isSome_iff_exists.mp hsome
  exact ⟨p, List.mem_of_find?_eq_some hp, by simpa using List.find?_some hp,
    by simp [assocLookup, hp]⟩

/-- C9: calling `save` on a model whose weight table is empty fails with an
IndexError: `features[-1]` is indexed unconditionally on the sorted (empty)
feature-name list, so no complete file is produced. -/
theorem save_empty_weights_fails (m : PModel) (h : m.weights = []) : save m = none := by
  unfold save
  rw [show sortedFeatures m.weights = [] from by rw [sortedFeatures, h]; rfl]
  rfl

/-- C9 (witness): a concrete model with no features cannot be saved. -/
theorem save_empty_weights_fails_witness :
    save ⟨[("a").data], none, none, none, none, [], 0, []⟩ = none :=
  save_empty_weights_fails _ rfl

/-- C1: for every model with a non-empty weight table, `load (save model)`
reproduces the vocabulary (as a set), lexicon, mapping, brown clusters,
word-to-vec table, target_mapping, target_size, and, for every feature name,
the exact 64-bit weight vector bit for bit (vectors are lists of 64-bit
float bit patterns, hence the `< 2^64` wellformedness hypothesis). -/
theorem save_load_roundtrip (m : PModel) (hne : m.weights ≠ [])
    (hvals : ∀ p ∈ m.weights, ∀ x ∈ p.2, x < 2 ^ 64) :
    ∃ sf, save m = some sf ∧
      (∀ w, w ∈ (load sf).vocabulary ↔ w ∈ m.vocabulary) ∧
      (load sf).lexicon = m.lexicon ∧ (load sf).mapping = m.mapping ∧
      (load sf).brownClusters = m.brownClusters ∧ (load sf).wordToVec = m.wordToVec ∧
      (load sf).targetMapping = m.targetMapping ∧ (load sf).targetSize = m.targetSize ∧
      ∀ f, assocLookup (load sf).weights f = assocLookup m.weights f := by
  have hperm : (sortedFeatures m.weights).Perm (m.weights.map Prod.fst) :=
    List.perm_insertionSort _ _
  have hnenil : sortedFeatures m.weights ≠ [] := by
    intro h0
    have hmap : m.weights.map Prod.fst = [] := (h0 ▸ hperm).symm.eq_nil
    exact hne (List.map_eq_nil_iff.mp hmap)
  rcases List.eq_nil_or_concat (sortedFeatures m.weights) with h0 | ⟨init, lastF, hconcat⟩
  · exact absurd h0 hnenil
  rw [List.concat_eq_append] at hconcat
  have hlast : (sortedFeatures m.weights).getLast? = some lastF := by
    rw [hconcat]; exact List.getLast?_concat ..
  have hsave : save m = some
      { vocabulary := m.vocabulary, lexicon := m.lexicon, mapping := m.mapping,
        brownClusters := m.brownClusters, wordToVec := m.wordToVec,
        targetMapping := m.targetMapping, targetSize := m.targetSize,
        features := sortedFeatures m.weights,
        weightStrings :=
          (sortedFeatures m.weights).dropLast.map
            (fun f => b85encode (vecToBytes ((assocLookup m.weights f).getD []))) ++
          [b85encode (vecToBytes ((assocLookup m.weights lastF).getD []))] } := by
    simp only [save]
    rw [hlast]
  refine ⟨_, hsave, fun w => Iff.rfl, rfl, rfl, rfl, rfl, rfl, rfl, ?_⟩
  intro f
  simp only [load]
  rw [hconcat, List.dropLast_concat, List.map_append, List.map_map]
  rw [List.zip_append (by simp)]
  have hzip1 : init.zip (init.map ((fun w => bytesToWords (b85decode w)) ∘
      (fun f => b85encode (vecToBytes ((assocLookup m.weights f).getD []))))) =
      init.map (fun a => (a, ((fun w => bytesToWords (b85decode w)) ∘
        (fun f => b85encode (vecToBytes ((assocLookup m.weights f).getD [])))) a)) := by
    have h := List.zip_map' (id : Word → Word)
      ((fun w => bytesToWords (b85decode w)) ∘
        (fun f => b85encode (vecToBytes ((assocLookup m.weights f).getD [])))) init
    rw [List.map_id] at h
    exact h
  rw [hzip1]
  rw [show ([lastF].zip ([b85encode (vecToBytes ((assocLookup m.weights lastF).getD
      []))].map (fun w => bytesToWords (b85decode w)))) =
      [lastF].map (fun a => (a, ((fun w => bytesToWords (b85decode w)) ∘
        (fun f => b85encode (vecToBytes ((assocLookup m.weights f).getD [])))) a))
    from rfl]
  rw [← List.map_append]
  rw [assocLookup_map_self]
  by_cases hf : f ∈ init ++ [lastF]
  · rw [if_pos hf]
    have hfs : f ∈ sortedFeatures m.weights := by rw [hconcat]; exact hf
    have hfk : f ∈ m.weights.map Prod.fst := hperm.mem_iff.mp hfs
    obtain ⟨p, hpmem, hpfst, hlk⟩ := assocLookup_mem m.weights f hfk
    rw [hlk]
    simp only [Function.comp_apply, hlk, Option.getD_some]
    rw [b85decode_encode _ (vecToBytes_lt _) (by rw [vecToBytes_length]; omega),
      bytesToWords_vecToBytes _ (hvals p hpmem)]
  · rw [if_neg hf]
    have hfk : f ∉ m.weights.map Prod.fst := by
      intro hmem
      exact hf (by rw [← hconcat]; exact hperm.mem_iff.mpr hmem)
    rw [assocLookup_eq_none_of_not_mem_keys _ _ hfk]

/-- A concrete one-feature model used to witness the round trip. -/
def sampleModel : PModel :=
  ⟨[("a").data], none, none, none, none, [(("NN").data, 0)], 1,
    [(("bias").data, [3, 18446744073709551615])]⟩

/-- C1 (witness): the round trip at a concrete model with one feature whose
vector holds the bit patterns 3 and `2^64 - 1`. -/
theorem save_load_roundtrip_witness :
    ∃ sf, save sampleModel = some sf ∧
      (∀ w, w ∈ (load sf).vocabulary ↔ w ∈ sampleModel.vocabulary) ∧
      (load sf).lexicon = sampleModel.lexicon ∧
      (load sf).mapping = sampleModel.mapping ∧
      (load sf).brownClusters = sampleModel.brownClusters ∧
      (load sf).wordToVec = sampleModel.wordToVec ∧
      (load sf).targetMapping = sampleModel.targetMapping ∧
      (load sf).targetSize = sampleModel.targetSize ∧
      ∀ f, assocLookup (load sf).weights f = assocLookup sampleModel.weights f :=
  save_load_roundtrip sampleModel (by decide) (by decide)

/- ===================  Word classification (_word_flags regexes)  =================== -/

/-- Regular expressions over characters (classes as predicates); matching is
decided with Brzozowski derivatives. Lookbehind/lookahead and the one
backreference in the source patterns are handled outside the AST (see the
individual matchers). -/
inductive RE where
  | emp : RE
  | eps : RE
  | cls : (Char → Bool) → RE
  | cat : RE → RE → RE
  | alt : RE → RE → RE
  | star : RE → RE

def RE.nullable : RE → Bool
  | .emp => false
  | .eps => true
  | .cls _ => false
  | .cat a b => a.nullable && b.nullable
  | .alt a b => a.nullable || b.nullable
  | .star _ => true

def RE.deriv : RE → Char → RE
  | .emp, _ => .emp
  | .eps, _ => .emp
  | .cls p, c => if p c then .eps else .emp
  | .cat a b, c =>
      if a.nullable then .alt (.cat (a.deriv c) b) (b.deriv c) else .cat (a.deriv c) b
  | .alt a b, c => .alt (a.deriv c) (b.deriv c)
  | .star a, c => .cat (a.deriv c) (.star a)

def RE.rmatch (r : RE) (s : List Char) : Bool := (s.foldl RE.deriv r).nullable

def reChr (c : Char) : RE := .cls (fun x => x == c)

/-- A literal character under `re.IGNORECASE`. -/
def reChrCI (c : Char) : RE := .cls (fun x => x == c.toLower || x == c.toUpper)

def reLit (s : List Char) : RE := s.foldr (fun c r => .cat (reChr c) r) .eps

def reLitCI (s : List Char) : RE := s.foldr (fun c r => .cat (reChrCI c) r) .eps

def reOpt (r : RE) : RE := .alt r .eps

def rePlus (r : RE) : RE := .cat r (.star r)

/-- Dot metacharacter (DOTALL off): any character but a newline. -/
def reDot : RE := .cls (fun c => !(c == '\n'))

def reAny : RE := .cls (fun _ => true)

def reLead : RE := .star reAny

/-- Search of a pattern whose only anchor is a leading `^`: match a prefix. -/
def searchPre (r : RE) (s : List Char) : Bool := RE.rmatch (.cat r reLead) s

/-- Search of a pattern whose only anchor is a trailing `$`: match a suffix. -/
def searchSuf (r : RE) (s : List Char) : Bool := RE.rmatch (.cat reLead r) s

/-- Search of an unanchored pattern: match anywhere. -/
def searchAny (r : RE) (s : List Char) : Bool :=
  RE.rmatch (.cat reLead (.cat r reLead)) s

/-- Word character `\w` (ASCII model of Python's class). -/
def isWordChar (c : Char) : Bool := c.isAlphanum || c == '_'

def reW : RE := .cls isWordChar

def reDigit : RE := .cls Char.isDigit

/-- The `email` pattern is written with POSIX classes (`[[:alnum:]]`), which
the `re` module used by this code does NOT support: `re` parses
`[[:alnum:].%+-]+` as the character class `{[, :, a, l, n, u, m}` (closed by
the first unescaped `]`), followed by `.` (any char), `%+`, a literal `-`
and `]+`. The same happens to `[[:alnum:].-]+` and to `[[:alpha:]]{2,}`
(class `{[, :, a, l, p, h}` then `]{2,}`). `emailCls1` is that first class
under IGNORECASE. -/
def emailCls1 (c : Char) : Bool :=
  (['[', ':', 'a', 'l', 'n', 'u', 'm', 'A', 'L', 'N', 'U', 'M']).contains c

def emailCls3 (c : Char) : Bool :=
  (['[', ':', 'a', 'l', 'p', 'h', 'A', 'L', 'P', 'H']).contains c

/-- Pattern `(?:@| \[?at\]? )`. -/
def emailAt : RE :=
  .alt (reChr '@')
    (.cat (reChr ' ') (.cat (reOpt (reChr '[')) (.cat (reLitCI (("at").data))
      (.cat (reOpt (reChr ']')) (reChr ' ')))))

/-- Pattern `(?:\.| \[?dot\]? )`. -/
def emailDot : RE :=
  .alt (reChr '.')
    (.cat (reChr ' ') (.cat (reOpt (reChr '[')) (.cat (reLitCI (("dot").data))
      (.cat (reOpt (reChr ']')) (reChr ' ')))))

/-- The `email` pattern exactly as the `re` module parses it (see
`emailCls1`); it is anchored `^…$`, so search is a full match. -/
def emailRE : RE :=
  .cat (rePlus (.cls emailCls1))
  (.cat reDot
  (.cat (rePlus (reChr '%'))
  (.cat (reChr '-')
  (.cat (rePlus (reChr ']'))
  (.cat emailAt
  (.cat (rePlus (.cls emailCls1))
  (.cat reDot
  (.cat (reChr '-')
  (.cat (rePlus (reChr ']'))
  (.cat emailDot
  (.cat (.cls emailCls3)
  (.cat (reChr ']') (rePlus (reChr ']'))))))))))))))

def emailSearch (w : Word) : Bool := RE.rmatch emailRE w

/-- Pattern `^</?[^>]+>$`. -/
def xmltagSearch (w : Word) : Bool :=
  RE.rmatch (.cat (reChr '<') (.cat (reOpt (reChr '/'))
    (.cat (rePlus (.cls (fun c => !(c == '>')))) (reChr '>')))) w

/-- Pattern `(?:https?|ftp|svn)`. -/
def urlSchemes : RE :=
  .alt (.cat (reLitCI (("http").data)) (reOpt (reChrCI 's')))
    (.alt (reLitCI (("ftp").data)) (reLitCI (("svn").data)))

/-- First url alternative `^(?:(?:(?:https?|ftp|svn)://|(?:https?://)?www\.).+)`. -/
def urlBranch1 : RE :=
  .cat (.alt (.cat urlSchemes (reLit (("://").data)))
      (.cat (reOpt (.cat (reLitCI (("http").data))
          (.cat (reOpt (reChrCI 's')) (reLit (("://").data)))))
        (.cat (reLitCI (("www").data)) (reChr '.'))))
    (rePlus reDot)

def urlExt : RE :=
  [("de"), ("com"), ("org"), ("net"), ("edu"), ("info"), ("jpg"), ("png"),
    ("gif"), ("log"), ("txt")].foldr (fun e r => .alt (reLitCI e.data) r) .emp

def urlCls (c : Char) : Bool := isWordChar c || c == '.' || c == '/' || c == '-'

/-- Second url alternative: word/dot/slash/hyphen chars, then a dot, a known extension and an optional `-\w+` tail, anchored `$`. -/
def urlBranch2 : RE :=
  .cat (rePlus (.cls urlCls))
    (.cat (reChr '.') (.cat urlExt (reOpt (.cat (reChr '-') (rePlus reW)))))

/-- The url pattern's top-level alternation binds `^` to the first branch
only and `$` to the second branch only, so `search` succeeds iff branch 1
matches a prefix or branch 2 matches a suffix. -/
def urlSearch (w : Word) : Bool := searchPre urlBranch1 w || searchSuf urlBranch2 w

/-- Pattern `^@\w+$`. -/
def mentionSearch (w : Word) : Bool := RE.rmatch (.cat (reChr '@') (rePlus reW)) w

/-- Pattern `^#\w+$`. -/
def hashtagSearch (w : Word) : Bool := RE.rmatch (.cat (reChr '#') (rePlus reW)) w

/-- Pattern `^[*+][^*]+[*]$`. -/
def actionSearch (w : Word) : Bool :=
  RE.rmatch (.cat (.cls (fun c => c == '*' || c == '+'))
    (.cat (rePlus (.cls (fun c => !(c == '*')))) (reChr '*'))) w

/-- The punctuation character class: `]` first (hence literal), `-` last. -/
def punctCls (c : Char) : Bool :=
  (("]()\x7b\x7d.!?…<>%‰€$£₤¥°@~*„“”‚‘\"'`´»«›‹,;:/*+=&%§~#^−–-").data).contains c

/-- Pattern `^[…]+$` over the punctuation class. -/
def punctSearch (w : Word) : Bool := RE.rmatch (rePlus (.cls punctCls)) w

/-- Pattern `^(?:\d+\.)+$`. -/
def ordinalSearch (w : Word) : Bool :=
  RE.rmatch (rePlus (.cat (rePlus reDigit) (reChr '.'))) w

/-- Sign class `[−+-]` (the first character is U+2212 MINUS SIGN). -/
def numberSign : RE := .cls (fun c => c == '−' || c == '+' || c == '-')

/-- The body of the `number` pattern (VERBOSE whitespace/comments stripped):
`[−+-]?\d*[.,]?\d+(?:[eE][−+-]?\d+)?|\d+[\d.,]*\d+`. -/
def numberBody : RE :=
  .alt
    (.cat (reOpt numberSign) (.cat (.star reDigit)
      (.cat (reOpt (.cls (fun c => c == '.' || c == ',')))
        (.cat (rePlus reDigit)
          (reOpt (.cat (.cls (fun c => c == 'e' || c == 'E'))
            (.cat (reOpt numberSign) (rePlus reDigit))))))))
    (.cat (rePlus reDigit)
      (.cat (.star (.cls (fun c => c.isDigit || c == '.' || c == ',')))
        (rePlus reDigit)))

/-- The negative lookahead `(?![.,]?\d)` holds at a position iff this
matcher returns `false` on the remaining characters. -/
def numberLookahead : List Char → Bool
  | c :: rest =>
      c.isDigit || ((c == '.' || c == ',') &&
        (match rest with | d :: _ => d.isDigit | [] => false))
  | [] => false

/-- Search for `number`: unanchored, with lookbehind `(?<!\w)` at the match
start and lookahead `(?![.,]?\d)` at the match end; the backtracking search
succeeds iff some split satisfies all three parts. -/
def numberSearch (w : Word) : Bool :=
  (List.range (w.length + 1)).any fun i =>
    (List.range (w.length + 1)).any fun j =>
      decide (i ≤ j) &&
      (match (w.take i).getLast? with | some c => !isWordChar c | none => true) &&
      RE.rmatch numberBody ((w.drop i).take (j - i)) &&
      !(numberLookahead (w.drop j))

/-- Pattern `^[☀-➿\U0001F300-\U0001f64f\U0001F680-\U0001F6FF\U0001F900-\U0001F9FF]$`. -/
def emojiSearch (w : Word) : Bool :=
  RE.rmatch (.cls (fun c =>
    (0x2600 ≤ c.toNat && c.toNat ≤ 0x27BF) ||
    (0x1F300 ≤ c.toNat && c.toNat ≤ 0x1F64F) ||
    (0x1F680 ≤ c.toNat && c.toNat ≤ 0x1F6FF) ||
    (0x1F900 ≤ c.toNat && c.toNat ≤ 0x1F9FF))) w

/-- Eyes `(?:[:;]|(?<!\d)8)`: the branch is anchored at `^`, so the
lookbehind before `8` is vacuously true. -/
def emoticonEyes : RE := .cls (fun c => c == ':' || c == ';' || c == '8')

/-- Optional nose `[-'oO]?`. -/
def emoticonNose : RE :=
  reOpt (.cls (fun c => c == '-' || c == '\'' || c == 'o' || c == 'O'))

/-- Backreference-free mouths `\)+ | \(+ | [*]`. -/
def emoticonPlainMouth : RE :=
  .alt (rePlus (reChr ')')) (.alt (rePlus (reChr '(')) (reChr '*'))

/-- Mouth `([DPp])\1*` is equivalent to the union of the three homogeneous runs. -/
def emoticonDMouth : RE :=
  .alt (rePlus (reChr 'D')) (.alt (rePlus (reChr 'P')) (rePlus (reChr 'p')))

/-- Whether the character at offset `j` (if any) is a `\w` character. -/
def wordCharAt (w : Word) (j : Nat) : Bool :=
  match w.drop j with | c :: _ => isWordChar c | [] => false

/-- First emoticon alternative (anchored `^`, no `$`): eyes, optional nose,
then either a plain mouth, or a `[DPp]` run followed by the negative
lookahead `(?!\w)`. -/
def emoticonBranch1 (w : Word) : Bool :=
  searchPre (.cat emoticonEyes (.cat emoticonNose emoticonPlainMouth)) w ||
  (List.range (w.length + 1)).any fun j =>
    RE.rmatch (.cat emoticonEyes (.cat emoticonNose emoticonDMouth)) (w.take j) &&
    !(wordCharAt w j)

/-- The escaped emoticon literals, sorted by length descending. Python sorts
the members of a set whose iteration order is per-process (string hash
randomization), so WHICH equal-length literal comes last — and therefore
carries the pattern's final `$` — is underdetermined; this model fixes the
canonical stable sort of the source literal, whose final element is `"oO"`.
All other literals are unanchored alternatives (substring matches). -/
def emoticonOthers : List Word :=
  [("(-.-)").data, ("(T_T)").data, ("(♥_♥)").data, (")':").data, (")-:").data,
   ("(-:").data, (")=").data, (")o:").data, (")x").data, (":'C").data, (":/").data,
   (":<").data, (":C").data, (":[").data, ("=(").data, ("=)").data, ("=D").data,
   ("=P").data, (">:").data, ("D':").data, ("D:").data, ("\\:").data, ("]:").data,
   ("x(").data, ("^^").data, ("o.O").data, ("\\O/").data, ("\\m/").data,
   (":;))").data, ("_))").data, ("*_*").data, ("._.").data, (":wink:").data,
   (">_<").data, ("*<:-)").data, (":!:").data, (":;-))").data]

/-- The emoticon pattern: the `^` binds only to the first alternative and
the `$` only to the last; `(?:xD+|XD+)`, `([:;])[ ]+([()])` (the space
survives VERBOSE mode inside the class `[ ]`), `\^3` and the remaining
literals match anywhere. -/
def emoticonSearch (w : Word) : Bool :=
  emoticonBranch1 w ||
  searchAny (.alt (.cat (reChr 'x') (rePlus (reChr 'D')))
    (.cat (reChr 'X') (rePlus (reChr 'D')))) w ||
  searchAny (.cat (.cls (fun c => c == ':' || c == ';'))
    (.cat (rePlus (reChr ' ')) (.cls (fun c => c == '(' || c == ')')))) w ||
  searchAny (reLit (("^3").data)) w ||
  emoticonOthers.any (fun e => searchAny (reLit e) w) ||
  searchSuf (reLit (("oO").data)) w

/- Python's `str` predicates (ASCII model; cased characters approximated by
letters). -/

def pyCased (c : Char) : Bool := c.isAlpha

def pyIsalpha (w : Word) : Bool := !w.isEmpty && w.all Char.isAlpha

def pyIsnumeric (w : Word) : Bool := !w.isEmpty && w.all Char.isDigit

def pyIslower (w : Word) : Bool :=
  w.any pyCased && w.all (fun c => !pyCased c || c.isLower)

def pyIsupper (w : Word) : Bool :=
  w.any pyCased && w.all (fun c => !pyCased c || c.isUpper)

/-- Model of `str.istitle`: uppercase letters only after uncased characters,
lowercase letters only after cased ones, and at least one cased character. -/
def pyIstitleLoop : List Char → Bool → Bool → Bool
  | [], _, seen => seen
  | c :: cs, prev, seen =>
      if c.isUpper then (if prev then false else pyIstitleLoop cs true true)
      else if c.isLower then (if prev then pyIstitleLoop cs true true else false)
      else pyIstitleLoop cs false seen

def pyIstitle (w : Word) : Bool := pyIstitleLoop w false false

/-- Model of `ASPTagger._word_flags`: one flag string per successful check,
in the `append` order of the source. -/
def wordFlags (w : Word) (pre : Word) : List Word :=
  (if pyIsalpha w then [pre ++ ("_isalpha").data] else []) ++
  (if pyIsnumeric w then [pre ++ ("_isnumeric").data] else []) ++
  (if pyIslower w then [pre ++ ("_islower").data] else []) ++
  (if pyIsupper w then [pre ++ ("_isupper").data] else []) ++
  (if pyIstitle w then [pre ++ ("_istitle").data] else []) ++
  (if emailSearch w then [pre ++ ("_isemail").data] else []) ++
  (if xmltagSearch w then [pre ++ ("_istag").data] else []) ++
  (if urlSearch w then [pre ++ ("_isurl").data] else []) ++
  (if mentionSearch w then [pre ++ ("_ismention").data] else []) ++
  (if hashtagSearch w then [pre ++ ("_ishashtag").data] else []) ++
  (if actionSearch w then [pre ++ ("_isactword").data] else []) ++
  (if emoticonSearch w then [pre ++ ("_isemoticon").data] else []) ++
  (if emojiSearch w then [pre ++ ("_isemoji").data] else []) ++
  (if punctSearch w then [pre ++ ("_ispunct").data] else []) ++
  (if ordinalSearch w then [pre ++ ("_isordinal").data] else []) ++
  (if numberSearch w then [pre ++ ("_isnumber").data] else [])

/-- C4 (code bug): the spec expects `"don@mail.com"` to set `isemail` and
not `isurl`. Under the `re` module actually imported by the code the
POSIX-style email pattern cannot match an ordinary address (it demands
literal `%` and `]` characters, see `emailCls1`), while the url pattern's
bare-domain branch matches the `mail.com` suffix: the flag list is exactly
`["W_islower", "W_isurl"]` — `isemail` is NOT set and `isurl` IS. -/
theorem word_flags_email_url_bug :
    emailSearch (("don@mail.com").data) = false ∧
    urlSearch (("don@mail.com").data) = true ∧
    wordFlags (("don@mail.com").data) (("W").data) =
      [("W_islower").data, ("W_isurl").data] := by
  refine ⟨by decide, by decide, by decide⟩

/- ===================  ASPTagger._get_static_features  =================== -/

/-- Decimal rendering of a natural, for `"%d"` formatting. -/
def natStr (n : Nat) : List Char := (toString n).data

/-- Decimal rendering of an integer, for `"%d"` formatting. -/
def intStr (z : Int) : List Char := (toString z).data

/-- Python `w[-3:]`: the last three characters (everything when shorter). -/
def rtake3 (l : List Char) : List Char := l.drop (l.length - 3)

/-- Models `round(math.log(len(word)))` for the `W_loglength` feature:
exact for lengths up to 13359 (the boundaries are `floor(e^(k+1/2))`),
clamped to 10 above; `math.log(0)` would raise ValueError on an empty
token, modelled as 0. No claim depends on this value, only on the
feature's name prefix. -/
def roundLogLen (n : Nat) : Nat :=
  if n ≤ 1 then 0 else if n ≤ 4 then 1 else if n ≤ 12 then 2 else if n ≤ 33 then 3
  else if n ≤ 90 then 4 else if n ≤ 244 then 5 else if n ≤ 665 then 6
  else if n ≤ 1808 then 7 else if n ≤ 4914 then 8 else if n ≤ 13359 then 9 else 10

/-- The optional lexical resources consulted by `_get_static_features`. -/
structure FeatConfig where
  lexicon : Option (List (Word × List Word))
  brownClusters : Option (List (Word × (Word × Int)))
  wordToVec : Option (List (Word × Word))

/-- Lookup `brown_clusters.get(t, ("N/A", 0))`. -/
def brownOf (bc : List (Word × (Word × Int))) (t : Word) : Word × Int :=
  (assocLookup bc t).getD ((("N/A").data, 0))

/-- The per-token body of `_get_static_features`: the sentence is padded
with two `<START>` sentinels before and two `<END>` sentinels after its
lowercased tokens; `j = i + 2` indexes the current token in that padded
view. Feature strings and guards follow the source's `append`/`extend`
order; `word` is the original-cased token (used for `W_loglength` and
`W_shape`), `w`/`p1`/`p2`/`n1`/`n2` the lowercased window. -/
def tokenFeatures (cfg : FeatConfig) (sentence : List Word) (i : Nat) : List Word :=
  let tokens := [("<START-2>").data, ("<START-1>").data] ++ sentence.map lowerW ++
    [("<END+1>").data, ("<END+2>").data]
  let word := sentence.getD i []
  let j := i + 2
  let w := tokens.getD j []
  let p1 := tokens.getD (j - 1) []
  let p2 := tokens.getD (j - 2) []
  let n1 := tokens.getD (j + 1) []
  let n2 := tokens.getD (j + 2) []
  let length := sentence.length
  [("bias").data,
   ("W_loglength: ").data ++ natStr (roundLogLen word.length),
   ("W_word: ").data ++ w,
   ("N1_word: ").data ++ n1,
   ("N2_word: ").data ++ n2,
   ("W_prefix: ").data ++ w.take 3,
   ("W_suffix: ").data ++ rtake3 w] ++
  (if 1 ≤ i then [("P1_suffix: ").data ++ rtake3 p1] else []) ++
  (if 1 < length - i then [("N1_suffix: ").data ++ rtake3 n1] else []) ++
  [("W_shape: ").data ++ wordShape word] ++
  (if 2 ≤ i then wordFlags p2 (("P2").data) else []) ++
  (if 1 ≤ i then wordFlags p1 (("P1").data) else []) ++
  wordFlags w (("W").data) ++
  (if 1 < length - i then wordFlags n1 (("N1").data) else []) ++
  (if 2 < length - i then wordFlags n2 (("N2").data) else []) ++
  (match cfg.brownClusters with
   | none => []
   | some bc =>
      (if 2 ≤ i then [("P2_brown: ").data ++ (brownOf bc p2).1] else []) ++
      (if 1 ≤ i then [("P1_brown: ").data ++ (brownOf bc p1).1] else []) ++
      [("W_brown: ").data ++ (brownOf bc w).1,
       ("W_logfreq: ").data ++ intStr (brownOf bc w).2] ++
      (if 1 < length - i then [("N1_brown: ").data ++ (brownOf bc n1).1] else []) ++
      (if 2 < length - i then [("N2_brown: ").data ++ (brownOf bc n2).1] else [])) ++
  (match cfg.wordToVec with
   | none => []
   | some wv =>
      match assocLookup wv w with
      | some v => [("W_w2v: ").data ++ v]
      | none => []) ++
  (match cfg.lexicon with
   | none => []
   | some lx =>
      match assocLookup lx w with
      | some feats => feats.map (fun ft => ("W_lex: ").data ++ ft)
      | none => [("W_lex: N/A").data])

/-- One sentence's token feature lists, in token order. -/
def sentenceFeatures (cfg : FeatConfig) (sentence : List Word) : List (List Word) :=
  (List.range sentence.length).map (tokenFeatures cfg sentence)

/-- The outer loop of `_get_static_features` over `lengths`, slicing the
flat word sequence. -/
def staticLoop (cfg : FeatConfig) (words : List Word) :
    List Nat → Nat → List (List Word)
  | [], _ => []
  | len :: lens, start =>
      sentenceFeatures cfg ((words.drop start).take len) ++
        staticLoop cfg words lens (start + len)

/-- Model of `ASPTagger._get_static_features`. -/
def getStaticFeatures (cfg : FeatConfig) (words : List Word)
    (lengths : List Nat) : List (List Word) :=
  staticLoop cfg words lengths 0

theorem mem_ite_nil {α : Type} (c : Prop) [Decidable c] (l : List α) (x : α) :
    x ∈ (if c then l else []) ↔ c ∧ x ∈ l := by
  split <;> simp_all

theorem wordFlags_mem_forms (w pre : Word) :
    ∀ f ∈ wordFlags w pre, ∃ s, s.take 3 = (("_is").data) ∧ f = pre ++ s := by
  intro f hf
  unfold wordFlags at hf
  simp only [List.mem_append, mem_ite_nil, List.mem_singleton] at hf
  rcases hf with ((((((((((((((⟨_, rfl⟩ | ⟨_, rfl⟩) | ⟨_, rfl⟩) | ⟨_, rfl⟩) | ⟨_, rfl⟩) |
    ⟨_, rfl⟩) | ⟨_, rfl⟩) | ⟨_, rfl⟩) | ⟨_, rfl⟩) | ⟨_, rfl⟩) | ⟨_, rfl⟩) | ⟨_, rfl⟩) |
    ⟨_, rfl⟩) | ⟨_, rfl⟩) | ⟨_, rfl⟩) | ⟨_, rfl⟩ <;>
    exact ⟨_, by decide, rfl⟩

theorem not_prefix_of_take4_ne {p f : List Char} (h4 : 4 ≤ p.length)
    (hne : p.take 4 ≠ f.take 4) : ¬ (p <+: f) := by
  intro hpre
  have ht : p.take 4 <+: f.take 4 := hpre.take 4
  have hlen : (f.take 4).length ≤ (p.take 4).length := by
    simp only [List.length_take]
    omega
  exact hne (ht.eq_of_length_le hlen)

theorem not_prefix_append_of_take4 (p tag payload : List Char) (h4 : 4 ≤ p.length)
    (htag : 4 ≤ tag.length) (hne : p.take 4 ≠ tag.take 4) : ¬ (p <+: tag ++ payload) := by
  apply not_prefix_of_take4_ne h4
  rw [List.take_append_of_le_length htag]
  exact hne

theorem not_prefix_flag (p pre s : Word) (hp : 4 ≤ p.length) (hpre1 : 1 ≤ pre.length)
    (hs : s.take 3 = (("_is").data))
    (hne : p.take 4 ≠ (pre ++ (("_is").data)).take 4) : ¬ (p <+: pre ++ s) := by
  apply not_prefix_of_take4_ne hp
  have he : (pre ++ s).take 4 = (pre ++ (("_is").data)).take 4 := by
    rw [List.take_append_eq_append_take, List.take_append_eq_append_take]
    congr 1
    rw [show s.take (4 - pre.length) = (s.take 3).take (4 - pre.length) from by
      rw [List.take_take]
      congr 1
      omega]
    rw [hs]
  rw [he]
  exact hne

/-- The fixed `"<tag>: "` prefixes of the unconditionally shaped static
features (names follow the source's format strings). -/
def staticTags : List Word :=
  [("W_loglength: ").data, ("W_word: ").data, ("N1_word: ").data, ("N2_word: ").data,
   ("W_prefix: ").data, ("W_suffix: ").data, ("W_shape: ").data,
   ("P2_brown: ").data, ("P1_brown: ").data, ("W_brown: ").data, ("W_logfreq: ").data,
   ("N1_brown: ").data, ("N2_brown: ").data, ("W_w2v: ").data, ("W_lex: ").data]

theorem staticTags_kill (t : Word) (ht : t ∈ staticTags) :
    4 ≤ t.length ∧ ((("P1_suffix: ").data).take 4 ≠ t.take 4) ∧
      ((("N1_suffix: ").data).take 4 ≠ t.take 4) := by
  have hall : ∀ x ∈ staticTags, 4 ≤ x.length ∧
      ((("P1_suffix: ").data).take 4 ≠ x.take 4) ∧
      ((("N1_suffix: ").data).take 4 ≠ x.take 4) := by decide
  exact hall t ht

theorem flagPres_kill (pre : Word)
    (hp : pre ∈ [("P2").data, ("P1").data, ("W").data, ("N1").data, ("N2").data]) :
    1 ≤ pre.length ∧
      ((("P1_suffix: ").data).take 4 ≠ (pre ++ (("_is").data)).take 4) ∧
      ((("N1_suffix: ").data).take 4 ≠ (pre ++ (("_is").data)).take 4) := by
  have hall : ∀ x ∈ [("P2").data, ("P1").data, ("W").data, ("N1").data, ("N2").data],
      1 ≤ x.length ∧
      ((("P1_suffix: ").data).take 4 ≠ (x ++ (("_is").data)).take 4) ∧
      ((("N1_suffix: ").data).take 4 ≠ (x ++ (("_is").data)).take 4) := by decide
  exact hall pre hp
theorem tokenFeatures_mem_shapes (lx : Option (List (Word × List Word)))
    (bc : Option (List (Word × (Word × Int)))) (wv : Option (List (Word × Word)))
    (sentence : List Word) (i : Nat) (f : Word)
    (hf : f ∈ tokenFeatures ⟨lx, bc, wv⟩ sentence i) :
    f = ("bias").data ∨
    (∃ t payload, t ∈ staticTags ∧ f = t ++ payload) ∨
    (∃ pre s, pre ∈ [("P2").data, ("P1").data, ("W").data, ("N1").data, ("N2").data] ∧
      s.take 3 = (("_is").data) ∧ f = pre ++ s) ∨
    (1 ≤ i ∧ ∃ payload, f = ("P1_suffix: ").data ++ payload) ∨
    (1 < sentence.length - i ∧ ∃ payload, f = ("N1_suffix: ").data ++ payload) := by
  unfold tokenFeatures at hf
  simp only [List.mem_append] at hf
  rcases hf with (((((((((((h | h) | h) | h) | h) | h) | h) | h) | h) | h) | h) | h)
  · -- the seven unconditional leading features
    simp only [List.mem_cons, List.not_mem_nil, or_false] at h
    rcases h with rfl | rfl | rfl | rfl | rfl | rfl | rfl
    · exact Or.inl rfl
    · exact Or.inr (Or.inl ⟨_, _, by simp [staticTags], rfl⟩)
    · exact Or.inr (Or.inl ⟨_, _, by simp [staticTags], rfl⟩)
    · exact Or.inr (Or.inl ⟨_, _, by simp [staticTags], rfl⟩)
    · exact Or.inr (Or.inl ⟨_, _, by simp [staticTags], rfl⟩)
    · exact Or.inr (Or.inl ⟨_, _, by simp [staticTags], rfl⟩)
    · exact Or.inr (Or.inl ⟨_, _, by simp [staticTags], rfl⟩)
  · -- P1_suffix block
    rw [mem_ite_nil] at h
    obtain ⟨hc, hm⟩ := h
    simp only [List.mem_singleton] at hm
    exact Or.inr (Or.inr (Or.inr (Or.inl ⟨hc, _, hm⟩)))
  · -- N1_suffix block
    rw [mem_ite_nil] at h
    obtain ⟨hc, hm⟩ := h
    simp only [List.mem_singleton] at hm
    exact Or.inr (Or.inr (Or.inr (Or.inr ⟨hc, _, hm⟩)))
  · -- W_shape
    simp only [List.mem_singleton] at h
    exact Or.inr (Or.inl ⟨_, _, by simp [staticTags], h⟩)
  · -- P2 flags
    rw [mem_ite_nil] at h
    obtain ⟨s, hs, rfl⟩ := wordFlags_mem_forms _ _ f h.2
    exact Or.inr (Or.inr (Or.inl ⟨_, s, by simp, hs, rfl⟩))
  · -- P1 flags
    rw [mem_ite_nil] at h
    obtain ⟨s, hs, rfl⟩ := wordFlags_mem_forms _ _ f h.2
    exact Or.inr (Or.inr (Or.inl ⟨_, s, by simp, hs, rfl⟩))
  · -- W flags
    obtain ⟨s, hs, rfl⟩ := wordFlags_mem_forms _ _ f h
    exact Or.inr (Or.inr (Or.inl ⟨_, s, by simp, hs, rfl⟩))
  · -- N1 flags
    rw [mem_ite_nil] at h
    obtain ⟨s, hs, rfl⟩ := wordFlags_mem_forms _ _ f h.2
    exact Or.inr (Or.inr (Or.inl ⟨_, s, by simp, hs, rfl⟩))
  · -- N2 flags
    rw [mem_ite_nil] at h
    obtain ⟨s, hs, rfl⟩ := wordFlags_mem_forms _ _ f h.2
    exact Or.inr (Or.inr (Or.inl ⟨_, s, by simp, hs, rfl⟩))
  · -- brown clusters
    split at h
    · simp at h
    · simp only [List.mem_append, mem_ite_nil, List.mem_cons, List.mem_singleton,
        List.not_mem_nil, or_false] at h
      rcases h with (((⟨_, rfl⟩ | ⟨_, rfl⟩) | rfl | rfl) | ⟨_, rfl⟩) | ⟨_, rfl⟩ <;>
        exact Or.inr (Or.inl ⟨_, _, by simp [staticTags], rfl⟩)
  · -- word_to_vec
    split at h
    · simp at h
    · split at h
      · simp only [List.mem_singleton] at h
        exact Or.inr (Or.inl ⟨_, _, by simp [staticTags], h⟩)
      · simp at h
  · -- lexicon
    split at h
    · simp at h
    · split at h
      · obtain ⟨ft, hft, rfl⟩ := List.mem_map.mp h
        exact Or.inr (Or.inl ⟨_, _, by simp [staticTags], rfl⟩)
      · simp only [List.mem_singleton] at h
        refine Or.inr (Or.inl ⟨("W_lex: ").data, ("N/A").data, by simp [staticTags], ?_⟩)
        rw [h]
        decide

/-- C6: for a token at sentence-local index `i` of a sentence of length `L`,
the static feature extractor emits a `P1_suffix` feature exactly when
`i ≥ 1` and an `N1_suffix` feature exactly when `L - i > 1`, for every
configuration of the optional lexical resources. -/
theorem static_features_suffix_guards (cfg : FeatConfig) (sentence : List Word)
    (i : Nat) (h : i < sentence.length) :
    ((∃ f ∈ tokenFeatures cfg sentence i, ("P1_suffix: ").data <+: f) ↔ 1 ≤ i) ∧
    ((∃ f ∈ tokenFeatures cfg sentence i, ("N1_suffix: ").data <+: f) ↔
      1 < sentence.length - i) := by
  obtain ⟨lx, bc, wv⟩ := cfg
  constructor
  · constructor
    · rintro ⟨f, hf, hpre⟩
      rcases tokenFeatures_mem_shapes lx bc wv sentence i f hf with
        rfl | ⟨t, payload, ht, rfl⟩ | ⟨pre, s, hpm, hs3, rfl⟩ | ⟨hc, _, rfl⟩ |
        ⟨_, payload, rfl⟩
      · exact absurd hpre (by decide)
      · obtain ⟨h4, hk, _⟩ := staticTags_kill t ht
        exact absurd hpre (not_prefix_append_of_take4 _ _ _ (by decide) h4 hk)
      · obtain ⟨h1, hk, _⟩ := flagPres_kill pre hpm
        exact absurd hpre (not_prefix_flag _ _ _ (by decide) h1 hs3 hk)
      · exact hc
      · exact absurd hpre
          (not_prefix_append_of_take4 _ _ _ (by decide) (by decide) (by decide))
    · intro hi
      refine ⟨("P1_suffix: ").data ++ rtake3 (([("<START-2>").data, ("<START-1>").data] ++
        sentence.map lowerW ++ [("<END+1>").data, ("<END+2>").data]).getD (i + 2 - 1) []),
        ?_, List.prefix_append _ _⟩
      exact List.mem_append_left _ (List.mem_append_left _ (List.mem_append_left _
        (List.mem_append_left _ (List.mem_append_left _ (List.mem_append_left _
        (List.mem_append_left _ (List.mem_append_left _ (List.mem_append_left _
        (List.mem_append_left _ (List.mem_append_right _
        (by rw [if_pos hi]; exact List.mem_singleton_self _)))))))))))
  · constructor
    · rintro ⟨f, hf, hpre⟩
      rcases tokenFeatures_mem_shapes lx bc wv sentence i f hf with
        rfl | ⟨t, payload, ht, rfl⟩ | ⟨pre, s, hpm, hs3, rfl⟩ | ⟨_, payload, rfl⟩ |
        ⟨hc, _, rfl⟩
      · exact absurd hpre (by decide)
      · obtain ⟨h4, _, hk⟩ := staticTags_kill t ht
        exact absurd hpre (not_prefix_append_of_take4 _ _ _ (by decide) h4 hk)
      · obtain ⟨h1, _, hk⟩ := flagPres_kill pre hpm
        exact absurd hpre (not_prefix_flag _ _ _ (by decide) h1 hs3 hk)
      · exact absurd hpre
          (not_prefix_append_of_take4 _ _ _ (by decide) (by decide) (by decide))
      · exact hc
    · intro hi
      refine ⟨("N1_suffix: ").data ++ rtake3 (([("<START-2>").data, ("<START-1>").data] ++
        sentence.map lowerW ++ [("<END+1>").data, ("<END+2>").data]).getD (i + 2 + 1) []),
        ?_, List.prefix_append _ _⟩
      exact List.mem_append_left _ (List.mem_append_left _ (List.mem_append_left _
        (List.mem_append_left _ (List.mem_append_left _ (List.mem_append_left _
        (List.mem_append_left _ (List.mem_append_left _ (List.mem_append_left _
        (List.mem_append_right _
        (by rw [if_pos hi]; exact List.mem_singleton_self _))))))))))

/-- C6 (witness): in the sentence `["The", "cat", "sat"]` the first token
(`i = 0`) emits no `P1_suffix` feature but does emit an `N1_suffix`
feature. -/
theorem static_features_suffix_guards_witness :
    (¬ ∃ f ∈ tokenFeatures ⟨none, none, none⟩
        [("The").data, ("cat").data, ("sat").data] 0, ("P1_suffix: ").data <+: f) ∧
    (∃ f ∈ tokenFeatures ⟨none, none, none⟩
        [("The").data, ("cat").data, ("sat").data] 0, ("N1_suffix: ").data <+: f) := by
  have h := static_features_suffix_guards ⟨none, none, none⟩
    [("The").data, ("cat").data, ("sat").data] 0 (by decide)
  constructor
  · intro hex
    have := h.1.mp hex
    omega
  · exact h.2.mpr (by decide)
